import Mathlib

/-!
Verification development for ListToDo27 (`src/list-todo.ts`).

The TypeScript source is shallowly embedded as executable Lean definitions:

* JavaScript `Map<string, T>` and plain objects with string-valued fields are
  both modelled as insertion-ordered association lists `List (String × T)`
  with first-match lookup (`mapGet`) and in-place update (`mapSet`), matching
  `Map.get` / `Map.set` and property read / property write.
* Byte-level details are abstracted one notch: content chunks are carried as
  the strings they decode to, so `TextDecoder.decode` of a concatenation is
  the concatenation of the per-chunk strings, and chunk length is string
  length.  The regular expressions of the source (`/[,\s]+/`,
  `/^([\w-_]+)/`, `/^\s*(\S+)\s+(?:-\s+|#\s+)?(.*)/`) are embedded as
  character-list scanners with the same matching behaviour; the JavaScript
  `\s` class is represented by its common members (space, tab, CR, LF,
  vertical tab, form feed, NBSP).
* `throw new Error(msg)` becomes `Except.error msg`; `console.warn` side
  effects are dropped (they never influence a return value).
* The unbounded recursions `itemIsActive` / `collectItemAndParentIds`
  (`subtaskOf` walks, which the source does not guard against cycles) are
  embedded with an explicit fuel parameter; running out of fuel produces the
  error a stack overflow would produce.  Fuel recursion is expressed through
  `Nat.rec` so every definition reduces definitionally.
-/

/-- JavaScript `Map.get` / object property read on an insertion-ordered
association list: first binding with the given key wins. -/
def mapGet {α : Type} : List (String × α) → String → Option α
  | [], _ => none
  | (k, v) :: rest, key => if k = key then some v else mapGet rest key

/-- JavaScript `Map.set` / object property write: overwrite the first binding
with the given key in place, otherwise append a new binding at the end. -/
def mapSet {α : Type} : List (String × α) → String → α → List (String × α)
  | [], key, val => [(key, val)]
  | (k, v) :: rest, key, val =>
    if k = key then (key, val) :: rest else (k, v) :: mapSet rest key val

/-- JavaScript `Map.has`. -/
def mapHas {α : Type} (m : List (String × α)) (key : String) : Bool :=
  (mapGet m key).isSome

/-- The common members of the JavaScript `\s` character class (also the
characters removed by `String.prototype.trim`). -/
def jsWsChar (c : Char) : Bool :=
  c = ' ' || c = '\t' || c = '\n' || c = '\r' ||
  c = '\x0b' || c = '\x0c' || c = '\xa0'

/-- JavaScript `String.prototype.trim`: strip `\s` characters from both ends. -/
def jsTrim (s : String) : String :=
  String.mk (((s.toList.dropWhile jsWsChar).reverse.dropWhile jsWsChar).reverse)

/-- ASCII-faithful JavaScript `String.prototype.toLowerCase`. -/
def jsToLower (s : String) : String :=
  String.mk (s.toList.map Char.toLower)

/-- `w.charAt(0).toUpperCase() + w.substring(1)` from `PhraseTranslator.addEnglish`. -/
def capitalizeFirst (s : String) : String :=
  match s.toList with
  | [] => ""
  | c :: cs => String.mk (Char.toUpper c :: cs)

/-- Scanner for JavaScript `String.prototype.split` with a single separator
character (empty pieces are kept, as in JS). -/
def jsSplitCharAux (sep : Char) : List Char → List Char → List String
  | [], acc => [String.mk acc.reverse]
  | c :: cs, acc =>
    if c = sep then String.mk acc.reverse :: jsSplitCharAux sep cs []
    else jsSplitCharAux sep cs (c :: acc)

/-- JavaScript `s.split(sep)` for a single separator character. -/
def jsSplitChar (sep : Char) (s : String) : List String :=
  jsSplitCharAux sep s.toList []

/-- Scanner for JavaScript `String.prototype.split` with a regex matching a
non-empty run of separator characters (such as `/[,\s]+/`): maximal runs
separate pieces, a leading run contributes a leading empty piece and a
trailing run a trailing empty piece.  The `inRun` flag records that the
scanner is inside a separator run whose piece has already been emitted. -/
def splitRunsAux (sep : Char → Bool) : List Char → List Char → Bool → List String
  | [], cur, inRun => if inRun then [""] else [String.mk cur.reverse]
  | c :: cs, cur, inRun =>
    if inRun then
      if sep c then splitRunsAux sep cs cur true
      else splitRunsAux sep cs [c] false
    else
      if sep c then String.mk cur.reverse :: splitRunsAux sep cs [] true
      else splitRunsAux sep cs (c :: cur) false

/-- JavaScript `s.split(runRegex)` where `runRegex` matches non-empty runs of
characters satisfying `sep`. -/
def jsSplitRuns (sep : Char → Bool) (s : String) : List String :=
  splitRunsAux sep s.toList [] false

/-- Concatenation of a list of strings (the decoded content chunks). -/
def strConcat : List String → String
  | [] => ""
  | s :: rest => s ++ strConcat rest

/-- Substring test helper (used to state what an error message mentions). -/
def listContains (pat : List Char) : List Char → Bool
  | [] => pat.isEmpty
  | c :: cs => pat.isPrefixOf (c :: cs) || listContains pat cs

/-- Whether `pat` occurs as a contiguous substring of `hay`. -/
def strContains (hay pat : String) : Bool :=
  listContains pat.toList hay.toList

/-- One piece of the external TEF tokenizer stream (`tef.TEFPiece`), as
consumed by `tefPiecesToEntries` (src/list-todo.ts lines 35-54).  The fields
of `comment` pieces are never read, so they are not carried. -/
inductive TEFPiece where
  | newEntry (typeString idString : String)
  | comment
  | contentChunk (data : String)
  | header (key value : String)
deriving DecidableEq, Repr

/-- `TEFEntry` (src/list-todo.ts lines 11-16); headers are (key, value)
pairs, content chunks are carried as decoded strings. -/
structure TEFEntry where
  typeString : String
  idString : String
  headers : List (String × String)
  contentChunks : List String
deriving DecidableEq, Repr

/-- `makeBlankTefEntry` (lines 18-25). -/
def makeBlankTefEntry : TEFEntry :=
  { typeString := "", idString := "", headers := [], contentChunks := [] }

/-- `tefEntryIsEmpty` (lines 27-33). -/
def tefEntryIsEmpty (entry : TEFEntry) : Bool :=
  if entry.typeString.length > 0 then false
  else if entry.idString.length > 0 then false
  else if entry.headers.length > 0 then false
  else if entry.contentChunks.length > 0 then false
  else true

/-- Loop body of `tefPiecesToEntries` (lines 35-54): the returned list is
exactly the sequence of entries the generator yields.  On a `new-entry`
piece a non-empty pending entry is yielded first; at end of input the
generator returns without yielding the pending entry. -/
def tefPiecesToEntriesAux : List TEFPiece → TEFEntry → List TEFEntry
  | [], _ => []
  | piece :: rest, cur =>
    match piece with
    | .newEntry t i =>
      if tefEntryIsEmpty cur then
        tefPiecesToEntriesAux rest { cur with typeString := t, idString := i }
      else
        cur :: tefPiecesToEntriesAux rest
          { makeBlankTefEntry with typeString := t, idString := i }
    | .comment => tefPiecesToEntriesAux rest cur
    | .contentChunk d =>
      tefPiecesToEntriesAux rest { cur with contentChunks := cur.contentChunks ++ [d] }
    | .header k v =>
      tefPiecesToEntriesAux rest { cur with headers := cur.headers ++ [(k, v)] }

/-- `tefPiecesToEntries` applied to a finite piece stream. -/
def tefPiecesToEntries (pieces : List TEFPiece) : List TEFEntry :=
  tefPiecesToEntriesAux pieces makeBlankTefEntry

/-- `Phrase` (src/list-todo.ts lines 58-62). -/
structure Phrase where
  english : String
  camelCase : String
  dashSeparated : String
deriving DecidableEq, Repr

/-- The `phrases` map of a `PhraseTranslator` (line 65). -/
abbrev PhraseMap : Type := List (String × Phrase)

/-- The phrase record `addEnglish` builds from its argument (lines 69-79):
split on single spaces, lowercase each word (substituting `email` for
`e-mail` first), then join compactly with later words capitalized, and join
with dashes. -/
def mkPhrase (english : String) : Phrase :=
  let lcWords := (jsSplitChar ' ' english).map
    (fun w => jsToLower (if w = "e-mail" then "email" else w))
  let ccWords := match lcWords with
    | [] => []
    | w :: ws => w :: ws.map capitalizeFirst
  { english := english
    camelCase := String.join ccWords
    dashSeparated := String.intercalate "-" lcWords }

/-- `PhraseTranslator.addEnglish` (lines 66-83): no-op when the argument is
already a key, otherwise store the new record under all three forms. -/
def addEnglish (pt : PhraseMap) (english : String) : PhraseMap :=
  if mapHas pt english then pt
  else
    let p := mkPhrase english
    mapSet (mapSet (mapSet pt english p) p.camelCase p) p.dashSeparated p

/-- `PhraseTranslator.addDashed` (lines 84-86). -/
def addDashed (pt : PhraseMap) (dashed : String) : PhraseMap :=
  addEnglish pt (String.intercalate " " (jsSplitChar '-' dashed))

/-- The process-wide `phraseTranslator` after start-up (lines 110-111):
`description` is pre-registered. -/
def initialPhrases : PhraseMap :=
  addEnglish [] "description"

/-- Projected items (`ItemEtc`, lines 119-130): a JavaScript object mapping
field names to string values. -/
abbrev ItemObj : Type := List (String × String)

/-- The item collection `Map<string, Item>` of `processMain`. -/
abbrev ItemMap : Type := List (String × ItemObj)

/-- `strToList` (lines 132-137): `undefined` and blank strings give `[]`,
otherwise trim and split on runs of commas and/or whitespace. -/
def strToList (str : Option String) : List String :=
  match str with
  | none => []
  | some s =>
    let t := jsTrim s
    if t.length = 0 then [] else jsSplitRuns (fun c => c = ',' || jsWsChar c) t

/-- The match of `/^\s*(\S+)\s+(?:-\s+|#\s+)?(.*)/` against the raw ID line
(line 150): the optional separator group consumes `-` or `#` followed by at
least one whitespace character (then the whole whitespace run). -/
def consumeIdTitleSep (cs : List Char) : List Char :=
  match cs with
  | c :: c2 :: rest =>
    if (c = '-' || c = '#') && jsWsChar c2 then (c2 :: rest).dropWhile jsWsChar
    else cs
  | _ => cs

/-- `splitIdTitle raw` returns `some (id, title)` when the regex of line 150
matches `raw` (captured groups), `none` when it does not (no non-whitespace
run, or no whitespace after it).  `(.*)` stops at the first newline. -/
def splitIdTitle (s : String) : Option (String × String) :=
  let cs := s.toList.dropWhile jsWsChar
  let idChars := cs.takeWhile (fun c => !jsWsChar c)
  let rest := cs.dropWhile (fun c => !jsWsChar c)
  if idChars.isEmpty then none
  else if rest.isEmpty then none
  else
    let afterSep := consumeIdTitleSep (rest.dropWhile jsWsChar)
    some (String.mk idChars, String.mk (afterSep.takeWhile (fun c => c ≠ '\n')))

/-- Effective ID and title of an entry (lines 146-156): the captured groups
when the regex matches, otherwise the raw ID line with an empty title
(`trimIds` is constantly `true`). -/
def effectiveIdTitle (raw : String) : String × String :=
  match splitIdTitle raw with
  | some it => it
  | none => (raw, "")

/-- The object after the ID/title/type assignments of lines 159-161 (empty
strings are not stored). -/
def baseObj (e : TEFEntry) : ItemObj :=
  let effId := (effectiveIdTitle e.idString).1
  let effTitle := (effectiveIdTitle e.idString).2
  let obj1 : ItemObj := if effId ≠ "" then mapSet [] "idString" effId else []
  let obj2 := if effTitle ≠ "" then mapSet obj1 "title" effTitle else obj1
  if e.typeString ≠ "" then mapSet obj2 "typeString" e.typeString else obj2

/-- The header loop of `tefEntryToItem` (lines 162-170): register the key's
dash form, resolve its compact form (`get` throws when the key is unknown
under all three forms), skip headers whose value is exactly empty, and
accumulate trimmed values newline-joined under the compact key. -/
def foldHeaders : PhraseMap → ItemObj → List (String × String) → Except String (PhraseMap × ItemObj)
  | pt, obj, [] => .ok (pt, obj)
  | pt, obj, (k, v) :: rest =>
    match mapGet (addDashed pt k) k with
    | none => .error ("\"" ++ k ++ "\" to not in phrase database")
    | some phrase =>
      if v = "" then foldHeaders (addDashed pt k) obj rest
      else
        foldHeaders (addDashed pt k)
          (mapSet obj phrase.camelCase
            ((if ((mapGet obj phrase.camelCase).getD "").length > 0
              then ((mapGet obj phrase.camelCase).getD "") ++ "\n"
              else ((mapGet obj phrase.camelCase).getD "")) ++ jsTrim v)) rest

/-- `tefEntryToItem` (lines 139-192), with the translator state threaded
explicitly.  Content chunks: when the total length is zero `description` is
omitted, otherwise it is the concatenation of the chunks. -/
def tefEntryToItem (pt : PhraseMap) (e : TEFEntry) : Except String (PhraseMap × ItemObj) :=
  match foldHeaders pt (baseObj e) e.headers with
  | .error msg => .error msg
  | .ok (pt2, obj) =>
    let contentLength := (e.contentChunks.map String.length).sum
    .ok (pt2, if contentLength = 0 then obj
              else mapSet obj "description" (strConcat e.contentChunks))

/-- `parseStatus` (lines 271-274): the leading run of `[\w-_]` characters,
`none` when the string does not start with one. -/
def parseStatus (status : String) : Option String :=
  let tok := status.toList.takeWhile (fun c => c.isAlphanum || c = '_' || c = '-')
  if tok.isEmpty then none else some (String.mk tok)

/-- `_itemStatus` (lines 308-310). -/
def _itemStatus (item : ItemObj) : Option String :=
  (mapGet item "status").bind parseStatus

/-- `isActiveStatus` (lines 319-331); the `console.warn` for unrecognized
statuses is dropped, the result is `none` (indeterminate) as in the source. -/
def isActiveStatus (status : Option String) : Option Bool :=
  match status with
  | some "todo" => some true
  | some "in-progress" => some true
  | some "done" => some false
  | some "cancelled" => some false
  | some "tabled" => some false
  | none => none
  | some _ => none

/-- The parent loop of `_itemIsActive` (lines 345-348): first parent whose
check returns true short-circuits; errors propagate. -/
def firstActiveParent (recur : String → Except String Bool) : List String → Except String Bool
  | [] => .ok false
  | p :: ps =>
    match recur p with
    | .error msg => .error msg
    | .ok true => .ok true
    | .ok false => firstActiveParent recur ps

/-- `_itemIsActive` (lines 336-353), abstracted over the recursive
`itemIsActive` call used for parents: explicit status wins, otherwise any
active parent makes the item active, otherwise the item is active exactly
when it has no parents. -/
def _itemIsActive (recur : String → Except String Bool) (item : ItemObj) : Except String Bool :=
  match isActiveStatus (_itemStatus item) with
  | some b => .ok b
  | none =>
    match firstActiveParent recur (strToList (mapGet item "subtaskOf")) with
    | .error msg => .error msg
    | .ok true => .ok true
    | .ok false => .ok (strToList (mapGet item "subtaskOf")).isEmpty

/-- `itemIsActive` (lines 355-359) at one recursion depth. -/
def itemIsActiveStep (recur : String → Except String Bool) (items : ItemMap) (itemId : String) : Except String Bool :=
  match mapGet items itemId with
  | none => .error ("itemIsActive('" ++ itemId ++ "'): No such item")
  | some item => _itemIsActive recur item

/-- `itemIsActive` with fuel bounding the recursion depth of the `subtaskOf`
walk (the source recursion is unbounded and would overflow the stack on a
cycle). -/
def itemIsActive (fuel : Nat) (items : ItemMap) : String → Except String Bool :=
  Nat.rec (motive := fun _ => String → Except String Bool)
    (fun _ => .error "Maximum call stack size exceeded")
    (fun _ prev => itemIsActiveStep prev items)
    fuel

/-- The dependency loop of `itemIsShovelReady` (lines 417-427): a missing
dependency is a fatal error naming both IDs; a dependency whose own status
token is `done` is passed over; any other dependency stops the loop with
`false` after its activity is computed for the warning (an error in that
computation propagates). -/
def depsReady (fuel : Nat) (items : ItemMap) (itemId : String) : List String → Except String Bool
  | [] => .ok true
  | depId :: rest =>
    match mapGet items depId with
    | none => .error ("Item " ++ depId ++ ", referenced by " ++ itemId ++ ", undefined")
    | some dep =>
      if _itemStatus dep = some "done" then depsReady fuel items itemId rest
      else
        match _itemIsActive (itemIsActive fuel items) dep with
        | .error msg => .error msg
        | .ok _ => .ok false

/-- `itemIsShovelReady` (lines 405-430). -/
def itemIsShovelReady (fuel : Nat) (items : ItemMap) (itemId : String) : Except String Bool :=
  match mapGet items itemId with
  | none => .error ("Item " ++ itemId ++ " undefined")
  | some item =>
    match _itemIsActive (itemIsActive fuel items) item with
    | .error msg => .error msg
    | .ok false => .ok false
    | .ok true => depsReady fuel items itemId (strToList (mapGet item "dependsOn"))

/-- The parent loop of `collectItemAndParentIds` (lines 227-229), abstracted
over the recursive call: thread the accumulator through the parents in
listed order. -/
def foldParents (recur : String → List String → Except String (List String)) : List String → List String → Except String (List String)
  | [], into => .ok into
  | p :: ps, into =>
    match recur p into with
    | .error msg => .error msg
    | .ok into2 => foldParents recur ps into2

/-- `collectItemAndParentIds` (lines 222-231) at one recursion depth: the
result list is the accumulator after all parent collections, with the item's
own ID pushed last. -/
def collectStep (recur : String → List String → Except String (List String)) (items : ItemMap) (itemId : String) (into : List String) : Except String (List String) :=
  match mapGet items itemId with
  | none => .error ("Referenced item " ++ itemId ++ " not found in items map!")
  | some item =>
    match foldParents recur (strToList (mapGet item "subtaskOf")) into with
    | .error msg => .error msg
    | .ok into2 => .ok (into2 ++ [itemId])

/-- `collectItemAndParentIds` with fuel bounding the recursion depth. -/
def collectItemAndParentIds (fuel : Nat) (items : ItemMap) : String → List String → Except String (List String) :=
  Nat.rec (motive := fun _ => String → List String → Except String (List String))
    (fun _ _ => .error "Maximum call stack size exceeded")
    (fun _ prev => collectStep prev items)
    fuel

/-- The `testItems` fixture (lines 361-384). -/
def testItems : ItemMap :=
  [ ("TESTPROJECT-A", [("status", "tabled (for now)")])
  , ("TESTTASK-AA", [("subtaskOf", "TESTPROJECT-A")])
  , ("TESTTASK-AB", [("subtaskOf", "TESTPROJECT-A"), ("status", "todo")])
  , ("TESTTASK-B", [("subtaskOf", "")])
  , ("TESTTASK-C", [("subtaskOf", ""), ("dependsOn", "TESTTASK-B")])
  , ("TESTTASK-D", [("subtaskOf", ""), ("dependsOn", "TESTPROJECT-A"),
      ("description", "Depends on a cancelled task; a funny edge case that should be reported!")])
  ]

/-- The ingestion step of `processMain` (lines 456-461) for one assembled
entry: project it, then store it in the collection keyed by `idString` when
that field is present (it is never stored as the empty string, matching the
truthiness test `if (item.idString)`), else leave the collection unchanged. -/
def processEntryStep (st : PhraseMap × ItemMap) (e : TEFEntry) : Except String (PhraseMap × ItemMap) :=
  match tefEntryToItem st.1 e with
  | .error msg => .error msg
  | .ok (pt, obj) =>
    match mapGet obj "idString" with
    | some id => if id = "" then .ok (pt, st.2) else .ok (pt, mapSet st.2 id obj)
    | none => .ok (pt, st.2)

/-- The whole ingestion loop of `processMain` over a finite entry list. -/
def processEntries (st : PhraseMap × ItemMap) (es : List TEFEntry) : Except String (PhraseMap × ItemMap) :=
  match es with
  | [] => .ok st
  | e :: rest =>
    match processEntryStep st e with
    | .error msg => .error msg
    | .ok st2 => processEntries st2 rest

/-- `LTD27Action` (lines 237-252), with the mode names as strings. -/
inductive LTD27Action where
  | process (selectionMode : String) (outputFormat : String)
  | showHelp
  | showMoreHelp
  | complainAboutArguments (errorMessages : List String)
deriving DecidableEq, Repr

/-- The argument loop of `parseOptions` (lines 581-617): the loop returns
immediately on `--help`, `--more-help`, and on the first unrecognized
argument (with a single error message). -/
def parseOptionsLoop : List String → String → String → LTD27Action
  | [], sel, fmt => .process sel fmt
  | arg :: rest, sel, fmt =>
    if arg = "--output-format=json" then parseOptionsLoop rest sel "json"
    else if arg = "--output-format=pretty" then parseOptionsLoop rest sel "pretty"
    else if arg = "-p" then parseOptionsLoop rest "random-shovel-ready-task" "pretty"
    else if arg = "--select=all" then parseOptionsLoop rest "all" fmt
    else if arg = "--select=random-todo-task" || arg = "--select=random-shovel-ready-task" then
      parseOptionsLoop rest "random-shovel-ready-task" fmt
    else if arg = "--select=incomplete" || arg = "--select=shovel-ready" then
      parseOptionsLoop rest "shovel-ready" fmt
    else if arg = "--help" then .showHelp
    else if arg = "--more-help" then .showMoreHelp
    else .complainAboutArguments ["Error: unrecognized argument " ++ arg]

/-- `parseOptions` (lines 581-617) with its initial defaults. -/
def parseOptions (args : List String) : LTD27Action :=
  parseOptionsLoop args "all" "json"

/-- The number `main` (lines 533-579) resolves its promise with: `0` for
processing and the help modes, `1` for the complaint action.  At the top
level (lines 619-621) this value is discarded: `main(...)` is called without
passing the resolved number to `Deno.exit`, so it never becomes the process
exit code. -/
def mainExitCode (action : LTD27Action) : Nat :=
  match action with
  | .process _ _ => 0
  | .showHelp => 0
  | .showMoreHelp => 0
  | .complainAboutArguments _ => 1

theorem mapGet_mapSet {α : Type} (m : List (String × α)) (k : String) (v : α) (key : String) :
    mapGet (mapSet m k v) key = if k = key then some v else mapGet m key := by
  induction m with
  | nil => simp [mapSet, mapGet]
  | cons hd tl ih =>
    obtain ⟨k0, v0⟩ := hd
    by_cases h0 : k0 = k
    · subst h0
      simp only [mapSet, if_pos rfl, mapGet]
      by_cases h1 : k0 = key <;> simp [h1]
    · simp only [mapSet, if_neg h0, mapGet]
      by_cases h1 : k0 = key
      · subst h1
        have : ¬ k = k0 := fun h => h0 h.symm
        simp [this]
      · simp [h1, ih]

theorem mem_mapSet {α : Type} {x : String × α} {m : List (String × α)} {k : String} {v : α}
    (h : x ∈ mapSet m k v) : x = (k, v) ∨ x ∈ m := by
  induction m with
  | nil => simpa [mapSet] using h
  | cons hd tl ih =>
    obtain ⟨k0, v0⟩ := hd
    by_cases h0 : k0 = k
    · simp only [mapSet, if_pos h0, List.mem_cons] at h
      rcases h with h | h
      · exact Or.inl h
      · exact Or.inr (List.mem_cons_of_mem _ h)
    · simp only [mapSet, if_neg h0, List.mem_cons] at h
      rcases h with h | h
      · exact Or.inr (by simp [h])
      · rcases ih h with h | h
        · exact Or.inl h
        · exact Or.inr (List.mem_cons_of_mem _ h)

theorem string_mk_ne_empty {l : List Char} (h : l ≠ []) : String.mk l ≠ "" := by
  intro heq
  exact h (congrArg String.data heq)

theorem string_append_ne_empty_right {a b : String} (h : b ≠ "") : a ++ b ≠ "" := by
  intro heq
  have hdata : a.data ++ b.data = [] := congrArg String.data heq
  have hb : b.data = [] := (List.append_eq_nil.mp hdata).2
  apply h
  cases b
  simpa using congrArg String.mk hb

theorem strConcat_length (l : List String) :
    (strConcat l).length = (l.map String.length).sum := by
  induction l with
  | nil => rfl
  | cons s rest ih => simp [strConcat, String.length_append, ih]

/-- When the argument is already a key (under whichever of the three forms it
entered the table), `addEnglish` is a no-op. -/
theorem addEnglish_of_mapHas (m : PhraseMap) (x : String) (hx : mapHas m x = true) :
    addEnglish m x = m := by
  simp [addEnglish, hx]

/-- C1 (code_bug evidence): `tefPiecesToEntries` emits nothing for a stream
whose only entry is still pending at end of input, although that pending
entry is non-empty; a non-final entry (flushed by the next `new-entry`
piece) is emitted.  So the last entry of every input file is silently
dropped, and `processMain` (lines 454-461) consumes the generator directly
without flushing the final entry either. -/
theorem tefPiecesToEntries_drops_final_entry :
    tefPiecesToEntries [TEFPiece.newEntry "task" "T1", TEFPiece.header "status" "todo"] = [] ∧
    tefEntryIsEmpty ⟨"task", "T1", [("status", "todo")], []⟩ = false ∧
    tefPiecesToEntries [TEFPiece.newEntry "task" "T1", TEFPiece.newEntry "task" "T2"] =
      [⟨"task", "T1", [], []⟩] := by
  refine ⟨rfl, rfl, rfl⟩

/-- C9 (code_bug evidence): on an argument list with two unrecognized
arguments, `parseOptions` returns at the first one with a single error
message (the claimed listing of each bad argument does not happen), and the
exit code `main` resolves with for that action is `1` — but the top level
(line 620) discards the resolved value, so the process exit code is the
runtime default 0, not 1. -/
theorem parseOptions_first_bad_arg_only :
    parseOptions ["--bad-one", "--bad-two"] =
      LTD27Action.complainAboutArguments ["Error: unrecognized argument --bad-one"] ∧
    mainExitCode (parseOptions ["--bad-one", "--bad-two"]) = 1 := by
  refine ⟨rfl, rfl⟩

/-- C7: registering a phrase that is not yet in the table stores one shared
record retrievable under all three of its forms, and re-registering it under
its original spaced form, its compact form, or its dash form leaves the
table unchanged. -/
theorem addEnglish_idempotent (pt : PhraseMap) (e : String) (h : mapHas pt e = false) :
    mapGet (addEnglish pt e) e = some (mkPhrase e) ∧
    mapGet (addEnglish pt e) (mkPhrase e).camelCase = some (mkPhrase e) ∧
    mapGet (addEnglish pt e) (mkPhrase e).dashSeparated = some (mkPhrase e) ∧
    addEnglish (addEnglish pt e) e = addEnglish pt e ∧
    addEnglish (addEnglish pt e) (mkPhrase e).camelCase = addEnglish pt e ∧
    addEnglish (addEnglish pt e) (mkPhrase e).dashSeparated = addEnglish pt e := by
  have hget : ∀ x, x = e ∨ x = (mkPhrase e).camelCase ∨ x = (mkPhrase e).dashSeparated →
      mapGet (addEnglish pt e) x = some (mkPhrase e) := by
    intro x hx
    simp only [addEnglish, h, Bool.false_eq_true, if_false]
    rcases hx with rfl | rfl | rfl <;> simp [mapGet_mapSet]
  have hhas : ∀ x, mapGet (addEnglish pt e) x = some (mkPhrase e) →
      mapHas (addEnglish pt e) x = true := by
    intro x hx
    simp [mapHas, hx]
  refine ⟨hget e (Or.inl rfl), hget _ (Or.inr (Or.inl rfl)), hget _ (Or.inr (Or.inr rfl)),
    ?_, ?_, ?_⟩
  · exact addEnglish_of_mapHas _ _ (hhas _ (hget e (Or.inl rfl)))
  · exact addEnglish_of_mapHas _ _ (hhas _ (hget _ (Or.inr (Or.inl rfl))))
  · exact addEnglish_of_mapHas _ _ (hhas _ (hget _ (Or.inr (Or.inr rfl))))

/-- Witness for C7 at the phrase `foo bar` over the empty table. -/
theorem addEnglish_idempotent_witness :
    mapGet (addEnglish [] "foo bar") (mkPhrase "foo bar").camelCase = some (mkPhrase "foo bar") ∧
    addEnglish (addEnglish [] "foo bar") (mkPhrase "foo bar").dashSeparated = addEnglish [] "foo bar" :=
  ⟨(addEnglish_idempotent [] "foo bar" rfl).2.1,
   (addEnglish_idempotent [] "foo bar" rfl).2.2.2.2.2⟩

theorem splitRunsAux_pieces_ne_empty (sep : Char → Bool) :
    ∀ cs : List Char, (∀ c, cs.getLast? = some c → sep c = false) →
      ((∀ cur : List Char, cur ≠ [] → ∀ x ∈ splitRunsAux sep cs cur false, x ≠ "") ∧
       (cs ≠ [] → ∀ cur : List Char, ∀ x ∈ splitRunsAux sep cs cur true, x ≠ "")) := by
  intro cs
  induction cs with
  | nil =>
    intro _
    refine ⟨?_, ?_⟩
    · intro cur hcur x hx
      simp only [splitRunsAux, Bool.false_eq_true, if_false, List.mem_singleton] at hx
      subst hx
      exact string_mk_ne_empty (by simpa using hcur)
    · intro h
      exact absurd rfl h
  | cons c cs ih =>
    intro hl
    have hl2 : ∀ c2, cs.getLast? = some c2 → sep c2 = false := by
      intro c2 hc2
      apply hl
      cases cs with
      | nil => simp at hc2
      | cons d ds => rw [List.getLast?_cons_cons]; exact hc2
    have hcne : sep c = true → cs ≠ [] := by
      intro hsep hnil
      subst hnil
      have hfc := hl c (by simp)
      rw [hfc] at hsep
      exact absurd hsep (by simp)
    refine ⟨?_, ?_⟩
    · intro cur hcur x hx
      by_cases hsep : sep c = true
      · simp only [splitRunsAux, hsep, Bool.false_eq_true, if_false, if_true, List.mem_cons] at hx
        rcases hx with hx | hx
        · subst hx
          exact string_mk_ne_empty (by simpa using hcur)
        · exact (ih hl2).2 (hcne hsep) [] x hx
      · have hsep2 : sep c = false := by revert hsep; cases sep c <;> simp
        simp only [splitRunsAux, hsep2, Bool.false_eq_true, if_false] at hx
        exact (ih hl2).1 (c :: cur) (by simp) x hx
    · intro _ cur x hx
      by_cases hsep : sep c = true
      · simp only [splitRunsAux, hsep, if_true, Bool.false_eq_true, if_false] at hx
        exact (ih hl2).2 (hcne hsep) cur x hx
      · have hsep2 : sep c = false := by revert hsep; cases sep c <;> simp
        simp only [splitRunsAux, hsep2, Bool.false_eq_true, if_false, if_true] at hx
        exact (ih hl2).1 [c] (by simp) x hx

/-- C6 (amended): `strToList` yields `[]` for an absent or blank value, and
all its entries are non-empty provided the trimmed value neither begins nor
ends with a separator character — a trimmed value beginning or ending with a
comma produces an empty entry at that end. -/
theorem strToList_amended (s : String)
    (h1 : ∀ c, (jsTrim s).toList.head? = some c → (c = ',' || jsWsChar c) = false)
    (h2 : ∀ c, (jsTrim s).toList.getLast? = some c → (c = ',' || jsWsChar c) = false) :
    strToList none = [] ∧
    (jsTrim s = "" → strToList (some s) = []) ∧
    (∀ x ∈ strToList (some s), x ≠ "") := by
  refine ⟨rfl, ?_, ?_⟩
  · intro h
    simp [strToList, h]
  · intro x hx
    by_cases hlen : (jsTrim s).length = 0
    · simp [strToList, hlen] at hx
    · simp only [strToList, hlen, Bool.false_eq_true, if_false, jsSplitRuns] at hx
      obtain ⟨c, rest, ht⟩ : ∃ c rest, (jsTrim s).toList = c :: rest := by
        cases hcs : (jsTrim s).toList with
        | nil =>
          exfalso
          apply hlen
          have : (jsTrim s).toList.length = 0 := by rw [hcs]; rfl
          exact this
        | cons c rest => exact ⟨c, rest, rfl⟩
      rw [ht] at hx
      have hc : (c = ',' || jsWsChar c) = false := h1 c (by rw [ht]; rfl)
      simp only [splitRunsAux, Bool.false_eq_true, if_false, hc] at hx
      have hlrest : ∀ c2, rest.getLast? = some c2 → (c2 = ',' || jsWsChar c2) = false := by
        intro c2 hc2
        apply h2
        rw [ht]
        cases rest with
        | nil => simp at hc2
        | cons d ds => rw [List.getLast?_cons_cons]; exact hc2
      exact (splitRunsAux_pieces_ne_empty _ rest hlrest).1 [c] (by simp) x hx

/-- C6 counterexample: a `dependsOn`-style value with a trailing comma
produces an empty ID entry, so `strToList` does not always return a list of
non-empty IDs. -/
theorem strToList_trailing_comma_counterexample :
    strToList (some "a,") = ["a", ""] ∧ "" ∈ strToList (some "a,") := by
  refine ⟨rfl, ?_⟩
  rw [show strToList (some "a,") = ["a", ""] from rfl]
  simp

/-- Witness for C6 at the value `a, b`. -/
theorem strToList_amended_witness : ("" : String) ∉ strToList (some "a, b") :=
  fun h =>
    (strToList_amended "a, b"
      (by
        intro c hc
        rw [show (jsTrim "a, b").toList.head? = some 'a' from rfl] at hc
        injection hc with h2
        subst h2
        decide)
      (by
        intro c hc
        rw [show (jsTrim "a, b").toList.getLast? = some 'b' from rfl] at hc
        injection hc with h2
        subst h2
        decide)).2.2 "" h rfl

theorem list_isEmpty_iff {α : Type} (l : List α) : l.isEmpty = true ↔ l = [] := by
  cases l <;> simp

theorem firstActiveParent_ok_true {recur : String → Except String Bool} :
    ∀ {ps : List String}, firstActiveParent recur ps = .ok true →
      ∃ p ∈ ps, recur p = .ok true := by
  intro ps
  induction ps with
  | nil =>
    intro h
    simp [firstActiveParent] at h
  | cons p ps ih =>
    intro h
    cases hr : recur p with
    | error msg =>
      rw [firstActiveParent, hr] at h
      exact absurd h (by simp)
    | ok b =>
      cases b with
      | true => exact ⟨p, List.mem_cons_self p ps, hr⟩
      | false =>
        rw [firstActiveParent, hr] at h
        obtain ⟨q, hq, hqr⟩ := ih h
        exact ⟨q, List.mem_cons_of_mem p hq, hqr⟩

theorem firstActiveParent_ok_false {recur : String → Except String Bool} :
    ∀ {ps : List String}, firstActiveParent recur ps = .ok false →
      ∀ p ∈ ps, recur p = .ok false := by
  intro ps
  induction ps with
  | nil =>
    intro _ p hp
    simp at hp
  | cons p ps ih =>
    intro h q hq
    cases hr : recur p with
    | error msg =>
      rw [firstActiveParent, hr] at h
      exact absurd h (by simp)
    | ok b =>
      cases b with
      | true =>
        rw [firstActiveParent, hr] at h
        exact absurd h (by simp)
      | false =>
        rw [firstActiveParent, hr] at h
        rcases List.mem_cons.mp hq with hq | hq
        · subst hq; exact hr
        · exact ih h q hq

/-- C3: whenever `itemIsActive` returns a result `b` for an item present in
the collection, an explicit active/inactive status token forces `b`, and
otherwise `b` is true exactly when the item has no parents or some parent's
own `itemIsActive` run (one fuel level down) returns true. -/
theorem itemIsActive_spec (n : Nat) (items : ItemMap) (itemId : String) (item : ItemObj) (b : Bool)
    (hfind : mapGet items itemId = some item)
    (hrun : itemIsActive (n + 1) items itemId = .ok b) :
    (∀ e, isActiveStatus (_itemStatus item) = some e → b = e) ∧
    (isActiveStatus (_itemStatus item) = none →
      (b = true ↔ strToList (mapGet item "subtaskOf") = [] ∨
        ∃ p ∈ strToList (mapGet item "subtaskOf"), itemIsActive n items p = .ok true)) := by
  have key : _itemIsActive (itemIsActive n items) item = .ok b := by
    have h1 : itemIsActiveStep (itemIsActive n items) items itemId = .ok b := hrun
    unfold itemIsActiveStep at h1
    rw [hfind] at h1
    exact h1
  cases hst : isActiveStatus (_itemStatus item) with
  | some e =>
    have h2 : (Except.ok e : Except String Bool) = .ok b := by
      have h3 := key
      unfold _itemIsActive at h3
      rw [hst] at h3
      exact h3
    refine ⟨?_, ?_⟩
    · intro e2 he2
      have he3 : e = e2 := by injection he2
      have hb : e = b := by injection h2
      exact hb.symm.trans he3
    · intro hnone
      exact absurd hnone (by simp)
  | none =>
    have h2 : (match firstActiveParent (itemIsActive n items) (strToList (mapGet item "subtaskOf")) with
        | .error msg => (Except.error msg : Except String Bool)
        | .ok true => .ok true
        | .ok false => .ok (strToList (mapGet item "subtaskOf")).isEmpty) = .ok b := by
      have h3 := key
      unfold _itemIsActive at h3
      rw [hst] at h3
      exact h3
    refine ⟨?_, ?_⟩
    · intro e2 he2
      exact absurd he2 (by simp)
    · intro _
      cases hfa : firstActiveParent (itemIsActive n items) (strToList (mapGet item "subtaskOf")) with
      | error msg =>
        rw [hfa] at h2
        exact absurd h2 (by simp)
      | ok r =>
        rw [hfa] at h2
        cases r with
        | true =>
          have hb : true = b := by injection h2
          refine ⟨fun _ => ?_, fun _ => ?_⟩
          · exact Or.inr (firstActiveParent_ok_true hfa)
          · exact hb.symm
        | false =>
          have hb : (strToList (mapGet item "subtaskOf")).isEmpty = b := by injection h2
          have hall := firstActiveParent_ok_false hfa
          refine ⟨fun hbt => ?_, fun hor => ?_⟩
          · left
            exact (list_isEmpty_iff _).mp (hb.trans hbt)
          · rcases hor with hnil | ⟨p, hp, hpr⟩
            · rw [← hb, hnil]
              rfl
            · have := (hall p hp).symm.trans hpr
              exact absurd this (by simp)

/-- Witness for C3 at `TESTTASK-AA` (no explicit status, single inactive
parent) in the source's `testItems` fixture. -/
theorem itemIsActive_spec_witness :
    false = true ↔ strToList (mapGet [("subtaskOf", "TESTPROJECT-A")] "subtaskOf") = [] ∨
      ∃ p ∈ strToList (mapGet [("subtaskOf", "TESTPROJECT-A")] "subtaskOf"),
        itemIsActive 2 testItems p = .ok true :=
  (itemIsActive_spec 2 testItems "TESTTASK-AA" [("subtaskOf", "TESTPROJECT-A")] false rfl rfl).2 rfl

theorem depsReady_ok_iff (fuel : Nat) (items : ItemMap) (itemId : String) :
    ∀ (ds : List String) (b : Bool), depsReady fuel items itemId ds = .ok b →
      (b = true ↔ ∀ d ∈ ds, ∃ dep, mapGet items d = some dep ∧ _itemStatus dep = some "done") := by
  intro ds
  induction ds with
  | nil =>
    intro b h
    have h2 : (Except.ok true : Except String Bool) = .ok b := h
    have hb : true = b := by injection h2
    subst hb
    simp
  | cons d rest ih =>
    intro b h
    unfold depsReady at h
    cases hd : mapGet items d with
    | none =>
      rw [hd] at h
      have h2 : (Except.error ("Item " ++ d ++ ", referenced by " ++ itemId ++ ", undefined") :
          Except String Bool) = .ok b := h
      exact absurd h2 (by simp)
    | some dep =>
      rw [hd] at h
      have h2 : (if _itemStatus dep = some "done" then depsReady fuel items itemId rest
          else match _itemIsActive (itemIsActive fuel items) dep with
            | .error msg => (Except.error msg : Except String Bool)
            | .ok _ => .ok false) = .ok b := h
      by_cases hst : _itemStatus dep = some "done"
      · rw [if_pos hst] at h2
        have hiff := ih b h2
        constructor
        · intro hb d2 hd2
          rcases List.mem_cons.mp hd2 with rfl | hd2
          · exact ⟨dep, hd, hst⟩
          · exact hiff.mp hb d2 hd2
        · intro hall
          exact hiff.mpr (fun d2 hd2 => hall d2 (List.mem_cons_of_mem d hd2))
      · rw [if_neg hst] at h2
        cases ha : _itemIsActive (itemIsActive fuel items) dep with
        | error msg =>
          rw [ha] at h2
          have h3 : (Except.error msg : Except String Bool) = .ok b := h2
          exact absurd h3 (by simp)
        | ok a =>
          rw [ha] at h2
          have h3 : (Except.ok false : Except String Bool) = .ok b := h2
          have hb : false = b := by injection h3
          subst hb
          constructor
          · intro hb2
            exact absurd hb2 (by simp)
          · intro hall
            rcases hall d (List.mem_cons_self d rest) with ⟨dep2, hdep2, hdone⟩
            rw [hd] at hdep2
            have heq : dep = dep2 := by injection hdep2
            subst heq
            exact absurd hdone hst

/-- C4: whenever `itemIsShovelReady` returns a result `b` for an item
present in the collection, `b` is true exactly when the item's activity
check succeeds with true and every ID in its `dependsOn` list names an item
of the collection whose own status token is exactly `done`. -/
theorem itemIsShovelReady_spec (n : Nat) (items : ItemMap) (itemId : String) (item : ItemObj) (b : Bool)
    (hfind : mapGet items itemId = some item)
    (hrun : itemIsShovelReady n items itemId = .ok b) :
    b = true ↔ (_itemIsActive (itemIsActive n items) item = .ok true ∧
      ∀ d ∈ strToList (mapGet item "dependsOn"),
        ∃ dep, mapGet items d = some dep ∧ _itemStatus dep = some "done") := by
  have key : (match _itemIsActive (itemIsActive n items) item with
      | .error msg => (Except.error msg : Except String Bool)
      | .ok false => .ok false
      | .ok true => depsReady n items itemId (strToList (mapGet item "dependsOn"))) = .ok b := by
    unfold itemIsShovelReady at hrun
    rw [hfind] at hrun
    exact hrun
  cases ha : _itemIsActive (itemIsActive n items) item with
  | error msg =>
    rw [ha] at key
    have key2 : (Except.error msg : Except String Bool) = .ok b := key
    exact absurd key2 (by simp)
  | ok a =>
    rw [ha] at key
    cases a with
    | false =>
      have key2 : (Except.ok false : Except String Bool) = .ok b := key
      have hb : false = b := by injection key2
      subst hb
      constructor
      · intro hb2
        exact absurd hb2 (by simp)
      · rintro ⟨hact, -⟩
        exact absurd hact (by simp)
    | true =>
      have key2 : depsReady n items itemId (strToList (mapGet item "dependsOn")) = .ok b := key
      have hiff := depsReady_ok_iff n items itemId _ b key2
      constructor
      · intro hb
        exact ⟨rfl, hiff.mp hb⟩
      · rintro ⟨-, hall⟩
        exact hiff.mpr hall

/-- Witness for C4 at `TESTTASK-B` (active, no dependencies) in the source's
`testItems` fixture. -/
theorem itemIsShovelReady_spec_witness :
    true = true ↔ (_itemIsActive (itemIsActive 1 testItems) [("subtaskOf", "")] = .ok true ∧
      ∀ d ∈ strToList (mapGet [("subtaskOf", "")] "dependsOn"),
        ∃ dep, mapGet testItems d = some dep ∧ _itemStatus dep = some "done") :=
  itemIsShovelReady_spec 1 testItems "TESTTASK-B" [("subtaskOf", "")] true rfl rfl

theorem foldParents_acc (recur : String → List String → Except String (List String))
    (hrec : ∀ p i, recur p i = match recur p [] with
      | .error msg => .error msg
      | .ok r => .ok (i ++ r)) :
    ∀ (ps into : List String), foldParents recur ps into =
      match foldParents recur ps [] with
      | .error msg => .error msg
      | .ok r => .ok (into ++ r) := by
  intro ps
  induction ps with
  | nil =>
    intro into
    simp [foldParents]
  | cons p ps ih =>
    intro into
    cases hp : recur p [] with
    | error msg =>
      have hp2 : recur p into = .error msg := by rw [hrec p into, hp]
      simp only [foldParents, hp2, hp]
    | ok r0 =>
      have hp2 : recur p into = .ok (into ++ r0) := by rw [hrec p into, hp]
      simp only [foldParents, hp2, hp]
      rw [ih (into ++ r0), ih r0]
      cases hps : foldParents recur ps [] with
      | error msg => simp
      | ok r1 => simp [List.append_assoc]

theorem collect_acc : ∀ (fuel : Nat) (items : ItemMap) (itemId : String) (into : List String),
    collectItemAndParentIds fuel items itemId into =
      match collectItemAndParentIds fuel items itemId [] with
      | .error msg => .error msg
      | .ok r => .ok (into ++ r) := by
  intro fuel
  induction fuel with
  | zero =>
    intro items itemId into
    rfl
  | succ n ih =>
    intro items itemId into
    have hstep : ∀ into2, collectItemAndParentIds (n + 1) items itemId into2 =
        collectStep (collectItemAndParentIds n items) items itemId into2 := fun _ => rfl
    rw [hstep, hstep]
    unfold collectStep
    cases hfind : mapGet items itemId with
    | none => simp
    | some item =>
      have hrec : ∀ p i, collectItemAndParentIds n items p i =
          match collectItemAndParentIds n items p [] with
          | .error msg => .error msg
          | .ok r => .ok (i ++ r) := fun p i => ih items p i
      show (match foldParents (collectItemAndParentIds n items) (strToList (mapGet item "subtaskOf")) into with
          | .error msg => (Except.error msg : Except String (List String))
          | .ok into2 => .ok (into2 ++ [itemId])) =
        match (match foldParents (collectItemAndParentIds n items) (strToList (mapGet item "subtaskOf")) [] with
          | .error msg => (Except.error msg : Except String (List String))
          | .ok into2 => .ok (into2 ++ [itemId])) with
        | .error msg => .error msg
        | .ok r => .ok (into ++ r)
      rw [foldParents_acc _ hrec (strToList (mapGet item "subtaskOf")) into]
      cases hps : foldParents (collectItemAndParentIds n items) (strToList (mapGet item "subtaskOf")) [] with
      | error msg => simp
      | ok r => simp [List.append_assoc]

theorem foldParents_ok_join (recur : String → List String → Except String (List String))
    (hrec : ∀ p i, recur p i = match recur p [] with
      | .error msg => .error msg
      | .ok r => .ok (i ++ r)) :
    ∀ (ps r : List String), foldParents recur ps [] = .ok r →
      ∃ ls, List.Forall₂ (fun p lp => recur p [] = .ok lp) ps ls ∧ r = ls.flatten := by
  intro ps
  induction ps with
  | nil =>
    intro r h
    have h2 : (Except.ok [] : Except String (List String)) = .ok r := h
    have h3 : ([] : List String) = r := by injection h2
    subst h3
    exact ⟨[], List.Forall₂.nil, rfl⟩
  | cons p ps ih =>
    intro r h
    unfold foldParents at h
    cases hp : recur p [] with
    | error msg =>
      rw [hp] at h
      have h2 : (Except.error msg : Except String (List String)) = .ok r := h
      exact absurd h2 (by simp)
    | ok r0 =>
      rw [hp] at h
      have h2 : foldParents recur ps r0 = .ok r := h
      rw [foldParents_acc recur hrec ps r0] at h2
      cases hps : foldParents recur ps [] with
      | error msg =>
        rw [hps] at h2
        have h3 : (Except.error msg : Except String (List String)) = .ok r := h2
        exact absurd h3 (by simp)
      | ok r1 =>
        rw [hps] at h2
        have h3 : (Except.ok (r0 ++ r1) : Except String (List String)) = .ok r := h2
        have hr : r0 ++ r1 = r := by injection h3
        obtain ⟨ls, hls, hjoin⟩ := ih r1 hps
        refine ⟨r0 :: ls, List.Forall₂.cons hp hls, ?_⟩
        rw [← hr, hjoin]
        rfl

/-- C5: whenever `collectItemAndParentIds` succeeds on an item present in
the collection (started with an empty accumulator, as `processMain` does),
the result is the concatenation, over the `subtaskOf` parents in listed
order, of each parent's own recursive collection (one fuel level down),
followed by the item's own ID — so ancestors appear strictly before the item
and shared ancestors are not de-duplicated. -/
theorem collectItemAndParentIds_spec (n : Nat) (items : ItemMap) (itemId : String) (item : ItemObj) (l : List String)
    (hfind : mapGet items itemId = some item)
    (hrun : collectItemAndParentIds (n + 1) items itemId [] = .ok l) :
    ∃ ls, List.Forall₂ (fun p lp => collectItemAndParentIds n items p [] = .ok lp)
        (strToList (mapGet item "subtaskOf")) ls ∧
      l = ls.flatten ++ [itemId] ∧ l.getLast? = some itemId := by
  have key : (match foldParents (collectItemAndParentIds n items) (strToList (mapGet item "subtaskOf")) [] with
      | .error msg => (Except.error msg : Except String (List String))
      | .ok into2 => .ok (into2 ++ [itemId])) = .ok l := by
    have h1 : collectStep (collectItemAndParentIds n items) items itemId [] = .ok l := hrun
    unfold collectStep at h1
    rw [hfind] at h1
    exact h1
  cases hps : foldParents (collectItemAndParentIds n items) (strToList (mapGet item "subtaskOf")) [] with
  | error msg =>
    rw [hps] at key
    have h2 : (Except.error msg : Except String (List String)) = .ok l := key
    exact absurd h2 (by simp)
  | ok r =>
    rw [hps] at key
    have h2 : (Except.ok (r ++ [itemId]) : Except String (List String)) = .ok l := key
    have hl : r ++ [itemId] = l := by injection h2
    have hrec : ∀ p i, collectItemAndParentIds n items p i =
        match collectItemAndParentIds n items p [] with
        | .error msg => .error msg
        | .ok r2 => .ok (i ++ r2) := fun p i => collect_acc n items p i
    obtain ⟨ls, hls, hjoin⟩ := foldParents_ok_join _ hrec _ r hps
    refine ⟨ls, hls, ?_, ?_⟩
    · rw [← hl, hjoin]
    · rw [← hl]
      exact List.getLast?_concat _

/-- Witness for C5: a child with two parents listed as `P-1 P-2` in a
three-item fixture. -/
theorem collectItemAndParentIds_spec_witness :
    ∃ ls, List.Forall₂
        (fun p lp => collectItemAndParentIds 1
          [("P-1", ([] : ItemObj)), ("P-2", ([] : ItemObj)), ("KID-3", [("subtaskOf", "P-1 P-2")])]
          p [] = .ok lp)
        (strToList (mapGet [("subtaskOf", "P-1 P-2")] "subtaskOf")) ls ∧
      ["P-1", "P-2", "KID-3"] = ls.flatten ++ ["KID-3"] ∧
      (["P-1", "P-2", "KID-3"] : List String).getLast? = some "KID-3" :=
  collectItemAndParentIds_spec 1
    [("P-1", ([] : ItemObj)), ("P-2", ([] : ItemObj)), ("KID-3", [("subtaskOf", "P-1 P-2")])]
    "KID-3" [("subtaskOf", "P-1 P-2")] ["P-1", "P-2", "KID-3"] rfl rfl

theorem mapSet_values_ne {obj : ItemObj} {k v : String}
    (hobj : ∀ kv ∈ obj, kv.2 ≠ "") (hv : v ≠ "") :
    ∀ kv ∈ mapSet obj k v, kv.2 ≠ "" := by
  intro kv hkv
  rcases mem_mapSet hkv with h | h
  · rw [h]
    exact hv
  · exact hobj kv h

theorem mapSetIf_values_ne {obj : ItemObj} {k v : String}
    (hobj : ∀ kv ∈ obj, kv.2 ≠ "") :
    ∀ kv ∈ (if v ≠ "" then mapSet obj k v else obj), kv.2 ≠ "" := by
  intro kv hkv
  by_cases hv : v ≠ ""
  · rw [if_pos hv] at hkv
    exact mapSet_values_ne hobj hv kv hkv
  · rw [if_neg hv] at hkv
    exact hobj kv hkv

theorem baseObj_values_ne (e : TEFEntry) : ∀ kv ∈ baseObj e, kv.2 ≠ "" := by
  unfold baseObj
  exact mapSetIf_values_ne (mapSetIf_values_ne (mapSetIf_values_ne (by intro kv h; simp at h)))

theorem foldHeaders_values_ne :
    ∀ (hs : List (String × String)) (pt : PhraseMap) (obj : ItemObj) (pt2 : PhraseMap) (obj2 : ItemObj),
      (∀ kv ∈ obj, kv.2 ≠ "") →
      (∀ kv ∈ hs, kv.2 = "" ∨ jsTrim kv.2 ≠ "") →
      foldHeaders pt obj hs = .ok (pt2, obj2) →
      ∀ kv ∈ obj2, kv.2 ≠ "" := by
  intro hs
  induction hs with
  | nil =>
    intro pt obj pt2 obj2 hobj _ h
    have h2 : (Except.ok (pt, obj) : Except String (PhraseMap × ItemObj)) = .ok (pt2, obj2) := h
    have h3 : (pt, obj) = (pt2, obj2) := by injection h2
    have hobj2 : obj = obj2 := congrArg Prod.snd h3
    rw [← hobj2]
    exact hobj
  | cons hd rest ih =>
    obtain ⟨k, v⟩ := hd
    intro pt obj pt2 obj2 hobj hh h
    unfold foldHeaders at h
    cases hp : mapGet (addDashed pt k) k with
    | none =>
      rw [hp] at h
      have h2 : (Except.error ("\"" ++ k ++ "\" to not in phrase database") :
          Except String (PhraseMap × ItemObj)) = .ok (pt2, obj2) := h
      exact absurd h2 (by simp)
    | some phrase =>
      rw [hp] at h
      have h2 : (if v = "" then foldHeaders (addDashed pt k) obj rest
          else foldHeaders (addDashed pt k)
            (mapSet obj phrase.camelCase
              ((if ((mapGet obj phrase.camelCase).getD "").length > 0
                then ((mapGet obj phrase.camelCase).getD "") ++ "\n"
                else ((mapGet obj phrase.camelCase).getD "")) ++ jsTrim v)) rest) =
          .ok (pt2, obj2) := h
      by_cases hv : v = ""
      · rw [if_pos hv] at h2
        exact ih _ _ _ _ hobj (fun kv hkv => hh kv (List.mem_cons_of_mem _ hkv)) h2
      · rw [if_neg hv] at h2
        refine ih _ _ _ _ ?_ (fun kv hkv => hh kv (List.mem_cons_of_mem _ hkv)) h2
        have htv : jsTrim v ≠ "" := by
          rcases hh (k, v) (List.mem_cons_self _ _) with h4 | h4
          · exact absurd h4 hv
          · exact h4
        exact mapSet_values_ne hobj (string_append_ne_empty_right htv)

/-- C2 (amended): the projector skips headers whose value is exactly the
empty string, and provided no header value is non-empty but
whitespace-only (trimming to empty), every field of the produced item is a
non-empty string.  (A non-empty header value that trims to empty is stored
as the empty string — see the counterexample.) -/
theorem tefEntryToItem_no_empty_values (pt : PhraseMap) (e : TEFEntry) (pt2 : PhraseMap) (obj : ItemObj)
    (hh : ∀ kv ∈ e.headers, kv.2 = "" ∨ jsTrim kv.2 ≠ "")
    (hrun : tefEntryToItem pt e = .ok (pt2, obj)) :
    ∀ kv ∈ obj, kv.2 ≠ "" := by
  unfold tefEntryToItem at hrun
  cases hf : foldHeaders pt (baseObj e) e.headers with
  | error msg =>
    rw [hf] at hrun
    have h2 : (Except.error msg : Except String (PhraseMap × ItemObj)) = .ok (pt2, obj) := hrun
    exact absurd h2 (by simp)
  | ok pr =>
    obtain ⟨pt3, obj3⟩ := pr
    rw [hf] at hrun
    have hobj3 := foldHeaders_values_ne e.headers pt (baseObj e) pt3 obj3 (baseObj_values_ne e) hh hf
    have hrun2 : (Except.ok (pt3, if (e.contentChunks.map String.length).sum = 0 then obj3
        else mapSet obj3 "description" (strConcat e.contentChunks)) :
        Except String (PhraseMap × ItemObj)) = .ok (pt2, obj) := hrun
    have h3 : (pt3, if (e.contentChunks.map String.length).sum = 0 then obj3
        else mapSet obj3 "description" (strConcat e.contentChunks)) = (pt2, obj) := by
      injection hrun2
    have hobj : (if (e.contentChunks.map String.length).sum = 0 then obj3
        else mapSet obj3 "description" (strConcat e.contentChunks)) = obj := congrArg Prod.snd h3
    rw [← hobj]
    by_cases hcl : (e.contentChunks.map String.length).sum = 0
    · rw [if_pos hcl]
      exact hobj3
    · rw [if_neg hcl]
      intro kv hkv
      rcases mem_mapSet hkv with hkv | hkv
      · rw [hkv]
        intro hempty
        apply hcl
        rw [← strConcat_length]
        rw [show strConcat e.contentChunks = "" from hempty]
        rfl
      · exact hobj3 kv hkv

/-- C2 counterexample: a `status` header whose value is a single space (so
non-empty, but trimming to empty) is not skipped and produces a field whose
value is the empty string. -/
theorem tefEntryToItem_empty_field_counterexample :
    (tefEntryToItem initialPhrases ⟨"", "", [("status", " ")], []⟩).map Prod.snd =
      .ok [("status", "")] := rfl

/-- Witness for C2 at an entry with a normal `status: todo` header. -/
theorem tefEntryToItem_no_empty_values_witness :
    ("status", "") ∉
      ([("idString", "X1"), ("title", "stuff"), ("typeString", "task"), ("status", "todo")] : ItemObj) :=
  fun h =>
    tefEntryToItem_no_empty_values initialPhrases ⟨"task", "X1 stuff", [("status", "todo")], []⟩ _ _
      (by
        intro kv hkv
        rw [List.mem_singleton] at hkv
        subst hkv
        right
        decide)
      rfl ("status", "") h rfl

/-- C8 (amended): dereferencing an ID absent from the collection is a
fatal error in all three resolver operations, and the error always names
the missing ID; but only the dependency check of `itemIsShovelReady` also
names the referencing item — the `itemIsActive` parent walk and the
ancestor collection name only the missing ID (the propagated parent error
of an item whose parent list is exactly the missing ID carries no mention
of the referencing item).  There is no silent skip or default result. -/
theorem resolver_unknown_reference (n : Nat) (items : ItemMap) (missingId refAId refBId : String)
    (refAItem refBItem : ItemObj) (into : List String)
    (hmiss : mapGet items missingId = none)
    (hA1 : mapGet items refAId = some refAItem)
    (hA2 : isActiveStatus (_itemStatus refAItem) = none)
    (hA3 : strToList (mapGet refAItem "subtaskOf") = [missingId])
    (hB1 : mapGet items refBId = some refBItem)
    (hB2 : _itemIsActive (itemIsActive n items) refBItem = .ok true)
    (hB3 : strToList (mapGet refBItem "dependsOn") = [missingId]) :
    itemIsActive (n + 1) items missingId =
      .error ("itemIsActive('" ++ missingId ++ "'): No such item") ∧
    collectItemAndParentIds (n + 1) items missingId into =
      .error ("Referenced item " ++ missingId ++ " not found in items map!") ∧
    itemIsShovelReady n items missingId = .error ("Item " ++ missingId ++ " undefined") ∧
    itemIsActive (n + 2) items refAId =
      .error ("itemIsActive('" ++ missingId ++ "'): No such item") ∧
    itemIsShovelReady n items refBId =
      .error ("Item " ++ missingId ++ ", referenced by " ++ refBId ++ ", undefined") := by
  have h1 : itemIsActive (n + 1) items missingId =
      .error ("itemIsActive('" ++ missingId ++ "'): No such item") := by
    show itemIsActiveStep (itemIsActive n items) items missingId = _
    unfold itemIsActiveStep
    rw [hmiss]
  have h2 : collectItemAndParentIds (n + 1) items missingId into =
      .error ("Referenced item " ++ missingId ++ " not found in items map!") := by
    show collectStep (collectItemAndParentIds n items) items missingId into = _
    unfold collectStep
    rw [hmiss]
  have h3 : itemIsShovelReady n items missingId =
      .error ("Item " ++ missingId ++ " undefined") := by
    unfold itemIsShovelReady
    rw [hmiss]
  have hfa : firstActiveParent (itemIsActive (n + 1) items) [missingId] =
      .error ("itemIsActive('" ++ missingId ++ "'): No such item") := by
    unfold firstActiveParent
    rw [h1]
  have h4 : itemIsActive (n + 2) items refAId =
      .error ("itemIsActive('" ++ missingId ++ "'): No such item") := by
    have hbody : _itemIsActive (itemIsActive (n + 1) items) refAItem =
        .error ("itemIsActive('" ++ missingId ++ "'): No such item") := by
      unfold _itemIsActive
      rw [hA2, hA3, hfa]
    show itemIsActiveStep (itemIsActive (n + 1) items) items refAId = _
    unfold itemIsActiveStep
    rw [hA1]
    exact hbody
  have hdeps : depsReady n items refBId [missingId] =
      .error ("Item " ++ missingId ++ ", referenced by " ++ refBId ++ ", undefined") := by
    unfold depsReady
    rw [hmiss]
  have h5 : itemIsShovelReady n items refBId =
      .error ("Item " ++ missingId ++ ", referenced by " ++ refBId ++ ", undefined") := by
    have hbody : (match _itemIsActive (itemIsActive n items) refBItem with
        | .error msg => (Except.error msg : Except String Bool)
        | .ok false => .ok false
        | .ok true => depsReady n items refBId (strToList (mapGet refBItem "dependsOn"))) =
        .error ("Item " ++ missingId ++ ", referenced by " ++ refBId ++ ", undefined") := by
      rw [hB2, hB3, hdeps]
    unfold itemIsShovelReady
    rw [hB1]
    exact hbody
  exact ⟨h1, h2, h3, h4, h5⟩

/-- C8 counterexample: for an item whose parent is missing from the
collection, the `itemIsActive` and `collectItemAndParentIds` failures name
only the missing ID — the referencing item `REF-1` appears nowhere in the
error message, contrary to the claim that both IDs are identified. -/
theorem resolver_unknown_reference_counterexample :
    itemIsActive 2 [("REF-1", [("subtaskOf", "MISSING-2")])] "REF-1" =
      .error "itemIsActive('MISSING-2'): No such item" ∧
    collectItemAndParentIds 2 [("REF-1", [("subtaskOf", "MISSING-2")])] "REF-1" [] =
      .error "Referenced item MISSING-2 not found in items map!" ∧
    strContains "itemIsActive('MISSING-2'): No such item" "REF-1" = false ∧
    strContains "Referenced item MISSING-2 not found in items map!" "REF-1" = false :=
  ⟨rfl, rfl, rfl, rfl⟩

/-- Witness for C8 in a two-item fixture where `REF-B` depends on the
absent `MISSING-1`. -/
theorem resolver_unknown_reference_witness :
    itemIsShovelReady 1
        [("REF-A", [("subtaskOf", "MISSING-1")]), ("REF-B", [("dependsOn", "MISSING-1")])]
        "REF-B" =
      .error "Item MISSING-1, referenced by REF-B, undefined" :=
  (resolver_unknown_reference 1
    [("REF-A", [("subtaskOf", "MISSING-1")]), ("REF-B", [("dependsOn", "MISSING-1")])]
    "MISSING-1" "REF-A" "REF-B" [("subtaskOf", "MISSING-1")] [("dependsOn", "MISSING-1")] []
    rfl rfl rfl rfl rfl rfl rfl).2.2.2.2

/-- C10: for any collection state, an entry whose projected item carries a
non-empty `idString` is stored under that ID, overwriting whatever item the
collection previously held under it (last one wins); an entry whose
projected item has no `idString` leaves the collection unchanged; neither
case is an error. -/
theorem processMain_last_wins (pt : PhraseMap) (m : ItemMap) (e : TEFEntry) (pt2 : PhraseMap) (obj : ItemObj)
    (hproj : tefEntryToItem pt e = .ok (pt2, obj)) :
    (∀ id, mapGet obj "idString" = some id → id ≠ "" →
      processEntryStep (pt, m) e = .ok (pt2, mapSet m id obj) ∧
      mapGet (mapSet m id obj) id = some obj) ∧
    (mapGet obj "idString" = none → processEntryStep (pt, m) e = .ok (pt2, m)) := by
  constructor
  · intro id hid hne
    constructor
    · unfold processEntryStep
      rw [hproj]
      show (match mapGet obj "idString" with
        | some id2 =>
          if id2 = "" then (Except.ok (pt2, m) : Except String (PhraseMap × ItemMap))
          else .ok (pt2, mapSet m id2 obj)
        | none => .ok (pt2, m)) = .ok (pt2, mapSet m id obj)
      rw [hid]
      show (if id = "" then (Except.ok (pt2, m) : Except String (PhraseMap × ItemMap))
        else .ok (pt2, mapSet m id obj)) = .ok (pt2, mapSet m id obj)
      rw [if_neg hne]
    · rw [mapGet_mapSet]
      simp
  · intro hid
    unfold processEntryStep
    rw [hproj]
    show (match mapGet obj "idString" with
      | some id2 =>
        if id2 = "" then (Except.ok (pt2, m) : Except String (PhraseMap × ItemMap))
        else .ok (pt2, mapSet m id2 obj)
      | none => .ok (pt2, m)) = .ok (pt2, m)
    rw [hid]

/-- Witness for C10: an entry with ID `X1` replaces the item previously
stored under `X1`. -/
theorem processMain_last_wins_witness :
    processEntryStep (initialPhrases, [("X1", [("idString", "OLD")])])
        ⟨"task", "X1 stuff", [("status", "todo")], []⟩ =
      .ok (addDashed initialPhrases "status",
        mapSet [("X1", [("idString", "OLD")])] "X1"
          [("idString", "X1"), ("title", "stuff"), ("typeString", "task"), ("status", "todo")]) ∧
    mapGet (mapSet [("X1", [("idString", "OLD")])] "X1"
        [("idString", "X1"), ("title", "stuff"), ("typeString", "task"), ("status", "todo")]) "X1" =
      some [("idString", "X1"), ("title", "stuff"), ("typeString", "task"), ("status", "todo")] :=
  (processMain_last_wins initialPhrases [("X1", [("idString", "OLD")])]
    ⟨"task", "X1 stuff", [("status", "todo")], []⟩ (addDashed initialPhrases "status")
    [("idString", "X1"), ("title", "stuff"), ("typeString", "task"), ("status", "todo")] rfl).1
    "X1" rfl (by decide)
